import Mathlib

/-!
Verification development for the AI-CoScientist core subsystems:
the resilient JSON extractor (`ai_coscientist/json_parser.py`), the Elo
rating arithmetic (`ai_coscientist/elo.py`, `ai_coscientist/types.py`)
and the tournament orchestrator (`ai_coscientist/main.py`).

Conventions of the embedding:
* Python floats are modelled by exact real numbers (the Elo formula) or
  exact rationals (scores, weights); machine integers by `Int`/`Nat`.
* Python's `json.loads` / `JSONDecoder.raw_decode` are modelled by a
  recursive-descent decoder over `List Char` following the json module's
  grammar (strict mode; the nonstandard NaN/Infinity extensions and
  surrogate-pair combination are not modelled, no input below uses them).
* Fuel arguments are termination devices only; they are always called
  with more fuel than the input length, which bounds the recursion depth.
-/

namespace AICoSci

/-- Values produced by Python's json module: `None`, `bool`, `int`,
`float` (modelled as an exact rational), `str`, `list`, `dict`
(an association list in insertion order, duplicate keys overwritten
in place as Python dicts do). -/
inductive JValue where
  | jnull : JValue
  | jbool : Bool → JValue
  | jint : Int → JValue
  | jnum : ℚ → JValue
  | jstr : String → JValue
  | jarr : List JValue → JValue
  | jobj : List (String × JValue) → JValue
deriving Repr

/-- JSON whitespace accepted by the json module between tokens:
space, tab, newline, carriage return. -/
def isJsonWs (c : Char) : Bool :=
  c = ' ' ∨ c = '\t' ∨ c = '\n' ∨ c = '\r'

/-- Drop leading JSON whitespace. -/
def skipWsJ : List Char → List Char
  | [] => []
  | c :: cs => if isJsonWs c then skipWsJ cs else c :: cs

/-- Python `str` whitespace stripped by `str.strip()` (ASCII part;
the Unicode whitespace code points play no role in the inputs here). -/
def pyIsSpace (c : Char) : Bool :=
  c = ' ' ∨ c = '\t' ∨ c = '\n' ∨ c = '\r' ∨ c = '\x0b' ∨ c = '\x0c'

/-- Model of Python `str.strip()`. -/
def pyStrip (s : String) : String :=
  String.mk (((s.data.dropWhile pyIsSpace).reverse.dropWhile pyIsSpace).reverse)

/-- Hexadecimal digit value, for `\uXXXX` escapes. -/
def hexVal (c : Char) : Option Nat :=
  if '0' ≤ c ∧ c ≤ '9' then some (c.toNat - '0'.toNat)
  else if 'a' ≤ c ∧ c ≤ 'f' then some (c.toNat - 'a'.toNat + 10)
  else if 'A' ≤ c ∧ c ≤ 'F' then some (c.toNat - 'A'.toNat + 10)
  else none

/-- Decode the body of a JSON string (the opening quote already
consumed), handling the escape sequences of the json module and
rejecting raw control characters (strict mode). -/
def pStr (fuel : Nat) (acc : List Char) (cs : List Char) :
    Option (String × List Char) :=
  match fuel, cs with
  | 0, _ => none
  | _, [] => none
  | f + 1, c :: rest =>
    if c = '"' then some (String.mk acc.reverse, rest)
    else if c = '\\' then
      match rest with
      | [] => none
      | e :: rest2 =>
        if e = '"' then pStr f ('"' :: acc) rest2
        else if e = '\\' then pStr f ('\\' :: acc) rest2
        else if e = '/' then pStr f ('/' :: acc) rest2
        else if e = 'b' then pStr f ('\x08' :: acc) rest2
        else if e = 'f' then pStr f ('\x0c' :: acc) rest2
        else if e = 'n' then pStr f ('\n' :: acc) rest2
        else if e = 'r' then pStr f ('\r' :: acc) rest2
        else if e = 't' then pStr f ('\t' :: acc) rest2
        else if e = 'u' then
          match rest2 with
          | h1 :: h2 :: h3 :: h4 :: rest3 =>
            match hexVal h1, hexVal h2, hexVal h3, hexVal h4 with
            | some a, some b, some c2, some d =>
              pStr f (Char.ofNat (((a * 16 + b) * 16 + c2) * 16 + d) :: acc) rest3
            | _, _, _, _ => none
          | _ => none
        else none
    else if c.toNat < 32 then none
    else pStr f (c :: acc) rest

/-- Numeric value of a digit run. -/
def digitsToNat (ds : List Char) : Nat :=
  ds.foldl (fun n c => n * 10 + (c.toNat - '0'.toNat)) 0

/-- Decode a JSON number following the json module's NUMBER_RE:
`-?(0|[1-9][0-9]*)(\.[0-9]+)?([eE][+-]?[0-9]+)?`.  A pure-integer
spelling yields `jint`; any fraction or exponent yields `jnum`
(Python would produce a float; the model keeps the exact rational). -/
def pNum (cs : List Char) : Option (JValue × List Char) :=
  let (neg, cs1) :=
    match cs with
    | c :: r => if c = '-' then (true, r) else (false, cs)
    | [] => (false, cs)
  match cs1 with
  | [] => none
  | c :: rest0 =>
    if ¬ c.isDigit then none
    else
      -- integer part: a single 0, or a nonzero-led digit run
      let (intDs, after) :=
        if c = '0' then ([c], rest0)
        else (cs1.takeWhile Char.isDigit, cs1.dropWhile Char.isDigit)
      -- optional fraction: '.' must be followed by at least one digit
      let (fracDs, afterF) :=
        match after with
        | d :: r =>
          if d = '.' then
            let fs := r.takeWhile Char.isDigit
            if fs = [] then (([] : List Char), after)
            else (fs, r.dropWhile Char.isDigit)
          else (([] : List Char), after)
        | [] => (([] : List Char), after)
      -- optional exponent: [eE][+-]?digits
      let (expNeg, expDs, afterE) :=
        match afterF with
        | e :: r =>
          if e = 'e' ∨ e = 'E' then
            let (sgn, r1) :=
              match r with
              | s :: rr =>
                if s = '+' then (false, rr)
                else if s = '-' then (true, rr)
                else (false, r)
              | [] => (false, r)
            let es := r1.takeWhile Char.isDigit
            if es = [] then (false, ([] : List Char), afterF)
            else (sgn, es, r1.dropWhile Char.isDigit)
          else (false, ([] : List Char), afterF)
        | [] => (false, ([] : List Char), afterF)
      if fracDs = [] ∧ expDs = [] then
        let v : Int := Int.ofNat (digitsToNat intDs)
        some (.jint (if neg then -v else v), afterF)
      else
        let mant : ℚ := (digitsToNat intDs : ℚ) +
          (digitsToNat fracDs : ℚ) / ((10 : ℚ) ^ fracDs.length)
        let ex : ℤ :=
          if expNeg then -(Int.ofNat (digitsToNat expDs))
          else Int.ofNat (digitsToNat expDs)
        let q : ℚ := mant * (10 : ℚ) ^ ex
        some (.jnum (if neg then -q else q), afterE)

/-- Insert a key/value pair the way Python dict assignment does:
overwrite in place if the key exists, else append. -/
def objInsert (es : List (String × JValue)) (k : String) (v : JValue) :
    List (String × JValue) :=
  match es with
  | [] => [(k, v)]
  | (k0, v0) :: rest =>
    if k0 = k then (k0, v) :: rest else (k0, v0) :: objInsert rest k v

mutual

/-- Decode one JSON value starting at the head of `cs` (no leading
whitespace skipped — the json module's `scan_once` behaves this way). -/
def pVal (fuel : Nat) (cs : List Char) : Option (JValue × List Char) :=
  match fuel with
  | 0 => none
  | f + 1 =>
    match cs with
    | 'n' :: 'u' :: 'l' :: 'l' :: rest => some (.jnull, rest)
    | 't' :: 'r' :: 'u' :: 'e' :: rest => some (.jbool true, rest)
    | 'f' :: 'a' :: 'l' :: 's' :: 'e' :: rest => some (.jbool false, rest)
    | '"' :: rest =>
      match pStr f [] rest with
      | some (s, r) => some (.jstr s, r)
      | none => none
    | '[' :: rest =>
      match skipWsJ rest with
      | ']' :: r => some (.jarr [], r)
      | cs2 => pArrLoop f cs2 []
    | '\x7b' :: rest =>
      match skipWsJ rest with
      | '\x7d' :: r => some (.jobj [], r)
      | cs2 => pObjLoop f cs2 []
    | _ => pNum cs

/-- Decode the elements of a non-empty JSON array. -/
def pArrLoop (fuel : Nat) (cs : List Char) (acc : List JValue) :
    Option (JValue × List Char) :=
  match fuel with
  | 0 => none
  | f + 1 =>
    match pVal f cs with
    | some (v, r) =>
      match skipWsJ r with
      | ',' :: r2 => pArrLoop f (skipWsJ r2) (v :: acc)
      | ']' :: r2 => some (.jarr (v :: acc).reverse, r2)
      | _ => none
    | none => none

/-- Decode the members of a non-empty JSON object. -/
def pObjLoop (fuel : Nat) (cs : List Char) (acc : List (String × JValue)) :
    Option (JValue × List Char) :=
  match fuel with
  | 0 => none
  | f + 1 =>
    match cs with
    | '"' :: r =>
      match pStr f [] r with
      | some (key, r1) =>
        match skipWsJ r1 with
        | ':' :: r2 =>
          match pVal f (skipWsJ r2) with
          | some (v, r3) =>
            let acc2 := objInsert acc key v
            match skipWsJ r3 with
            | ',' :: r4 => pObjLoop f (skipWsJ r4) acc2
            | '\x7d' :: r4 => some (.jobj acc2, r4)
            | _ => none
          | none => none
        | _ => none
      | none => none
    | _ => none

end

/-- Model of `json.loads`: a full strict decode — leading and trailing
whitespace allowed, the whole input must be consumed. -/
def pyLoads (s : String) : Option JValue :=
  let cs := skipWsJ s.data
  match pVal (s.data.length + 2) cs with
  | some (v, rest) => if skipWsJ rest = [] then some v else none
  | none => none

/-- Model of `json.JSONDecoder().raw_decode(s)`: decode one leading
JSON value starting exactly at index 0 (no whitespace skip), ignore
the remainder of the string. -/
def pyRawDecode (s : String) : Option JValue :=
  match pVal (s.data.length + 2) s.data with
  | some (v, _) => some v
  | none => none

/-- The backtick character (code point 96). -/
def backtickChar : Char := Char.ofNat 96

/-- Does the list start with three backticks? -/
def isTicks3 : List Char → Bool
  | a :: b :: c :: _ => a = backtickChar ∧ b = backtickChar ∧ c = backtickChar
  | _ => false

/-- Split a list at the first occurrence of three backticks, returning
the part before and the part after the backticks. -/
def splitAtTicks : List Char → Option (List Char × List Char)
  | [] => none
  | c :: rest =>
    if isTicks3 (c :: rest) then some ([], (c :: rest).drop 3)
    else
      match splitAtTicks rest with
      | some (a, b) => some (c :: a, b)
      | none => none

/-- Consume an optional case-insensitive `json` language tag, as the
group `(?:json)?` of the fence pattern does. -/
def dropJsonTag (cs : List Char) : List Char :=
  match cs with
  | a :: b :: c :: d :: rest =>
    if a.toLower = 'j' ∧ b.toLower = 's' ∧ c.toLower = 'o' ∧ d.toLower = 'n'
    then rest else cs
  | _ => cs

/-- Model of `re.sub(r"  ...(?:json)?\s*([\s\S]*?)...", r"\1", s, re.IGNORECASE)`
with triple-backtick fences: every non-overlapping leftmost match of
fence, optional language tag, greedy whitespace, lazy content, closing
fence is replaced by the content; scanning resumes after the match. -/
def stripFences (fuel : Nat) (cs : List Char) : List Char :=
  match fuel with
  | 0 => cs
  | f + 1 =>
    match cs with
    | [] => []
    | c :: rest =>
      if isTicks3 cs then
        let afterTag := dropJsonTag (cs.drop 3)
        let afterWs := afterTag.dropWhile pyIsSpace
        match splitAtTicks afterWs with
        | some (grp, after) => grp ++ stripFences f after
        | none => c :: stripFences f rest
      else c :: stripFences f rest

/-- Inner loop of the balanced-brace scan (json_parser.py lines 88-110):
walk forward from a `\x7b`, tracking nesting depth, treating characters
inside quoted strings as literal and skipping the character after a
backslash, and return the candidate substring once depth returns to 0. -/
def walkB : List Char → List Char → Int → Bool → Bool → Option (List Char)
  | [], _, _, _, _ => none
  | c :: rest, acc, depth, inStr, esc =>
    if esc then walkB rest (c :: acc) depth inStr false
    else if c = '\\' then walkB rest (c :: acc) depth inStr true
    else if c = '"' then walkB rest (c :: acc) depth (¬ inStr) false
    else if inStr then walkB rest (c :: acc) depth inStr false
    else if c = '\x7b' then walkB rest (c :: acc) (depth + 1) inStr false
    else if c = '\x7d' then
      if depth - 1 = 0 then some (c :: acc).reverse
      else walkB rest (c :: acc) (depth - 1) inStr false
    else walkB rest (c :: acc) depth inStr false

/-- Outer loop of the balanced-brace scan: try every `\x7b` position in
order; decode the balanced candidate with the strict decoder; return the
first success, else continue from the next `\x7b`. -/
def scanB : List Char → Option JValue
  | [] => none
  | c :: rest =>
    if c = '\x7b' then
      match walkB (c :: rest) [] 0 false false with
      | some cand =>
        match pyLoads (String.mk cand) with
        | some v => some v
        | none => scanB rest
      | none => scanB rest
    else scanB rest

/-- Inputs to the extractor: Python passes arbitrary objects; a
non-string input is modelled by its `str(...)` text and `type(...)` text. -/
inductive PyInput where
  | pstr (s : String)
  | nonString (reprText : String) (typeText : String)

/-- Model of `safely_parse_json` (json_parser.py lines 14-119).
Strategy chain: type guard, empty guard, fence stripping, full strict
decode (whose result is returned unwrapped, line 58), partial
`raw_decode` with non-dict wrapping, balanced-brace scan, diagnostic
mapping.  The logging calls have no observable effect and are omitted;
the `except Exception` branch of the strict decode is unreachable in
the model. -/
def safely_parse_json (inp : PyInput) : JValue :=
  match inp with
  | .nonString rep ty =>
    .jobj [("content", .jstr rep), ("error", .jstr ("Invalid input type: " ++ ty))]
  | .pstr s =>
    if pyStrip s = "" then
      .jobj [("content", .jstr ""), ("error", .jstr "Empty response from agent")]
    else
      let cleanedCs := stripFences (s.data.length + 1) s.data
      let cleaned := String.mk cleanedCs
      match pyLoads cleaned with
      | some v => v
      | none =>
        match pyRawDecode cleaned with
        | some v =>
          match v with
          | .jobj es => .jobj es
          | _ => .jobj [("content", v)]
        | none =>
          match scanB cleanedCs with
          | some v => v
          | none =>
            .jobj [("content", .jstr cleaned),
                   ("error", .jstr "Failed to parse JSON after multiple strategies")]

/-- Is the extractor result a mapping? -/
def JValue.isObj : JValue → Bool
  | .jobj _ => true
  | _ => false

/-- Truncation toward zero, the behaviour of Python `int(...)` on a
float: floor for non-negative arguments, ceiling for negative ones. -/
noncomputable def intTrunc (x : ℝ) : ℤ :=
  if 0 ≤ x then ⌊x⌋ else ⌈x⌉

/-- Expected score of the Elo formula (elo.py line 41), float
arithmetic modelled as exact reals:
`1 / (1 + 10 ** ((opponent_rating - rating) / 400))`. -/
noncomputable def expectedScore (rating opponent : ℤ) : ℝ :=
  1 / (1 + (10 : ℝ) ^ (((opponent : ℝ) - (rating : ℝ)) / 400))

/-- Model of `calculate_elo_update` (elo.py lines 24-43): the new
rating is `rating + int(k_factor * (actual - expected))`. -/
noncomputable def calculate_elo_update
    (rating opponent : ℤ) (win : Bool) (k : ℤ) : ℤ :=
  rating + intTrunc ((k : ℝ) * ((if win then (1 : ℝ) else 0) - expectedScore rating opponent))

/-- A research hypothesis (types.py lines 156-193).  The fields not
touched by the rating engine (reviews, score, cluster id, evolution
history, timestamp) are omitted. -/
structure Hypothesis where
  text : String
  elo_rating : Int := 1200
  win_count : Nat := 0
  loss_count : Nat := 0
  elo_scientific : Int := 1200
  elo_practical : Int := 1200
  elo_impact : Int := 1200
  elo_communication : Int := 1200
deriving Repr, DecidableEq

/-- Model of `Hypothesis.update_elo` (types.py lines 240-267): apply
the scalar Elo update and bump the win or loss counter.  The dynamic
isinstance guard is vacuous under the typed embedding. -/
noncomputable def update_elo (h : Hypothesis) (opponent_elo : ℤ)
    (win : Bool) (k : ℤ) : Hypothesis :=
  { h with
    elo_rating := calculate_elo_update h.elo_rating opponent_elo win k
    win_count := if win then h.win_count + 1 else h.win_count
    loss_count := if win then h.loss_count else h.loss_count + 1 }

/-- A value found under a dimension key of `dimension_scores`:
a numeric score (Python int or float, exact rational here — Python
bools pass the isinstance check as the numbers 1 and 0 and are folded
into `num`) or a value of the wrong type. -/
inductive ScoreVal where
  | num (q : ℚ)
  | wrongType
deriving Repr, DecidableEq

/-- A value looked up under a dimension name: either not a dict at all
or a dict carrying the optional `h_a` / `h_b` entries.  Extra keys of
the Python dict are never consulted and are not modelled. -/
inductive DimCell where
  | notDict
  | cell (h_a : Option ScoreVal) (h_b : Option ScoreVal)
deriving Repr, DecidableEq

/-- The per-dimension score pair `(selfScore, opponentScore)` when both
are present and numeric, `none` otherwise. -/
def dimScorePair (c : Option DimCell) (isA : Bool) : Option (ℚ × ℚ) :=
  match c with
  | some (.cell ha hb) =>
    match (if isA then ha else hb), (if isA then hb else ha) with
    | some (.num a), some (.num b) => some (a, b)
    | _, _ => none
  | _ => none

/-- A dimension is skipped when its entry is absent or not a dict, a
score is missing or non-numeric, or the two scores are equal. -/
def dimSkip (c : Option DimCell) (isA : Bool) : Bool :=
  match dimScorePair c isA with
  | none => true
  | some (a, b) => decide (a = b)

/-- One iteration of the dimension loop of `update_dimension_elos`
(types.py lines 212-230): skip (keep the rating) unless both scores are
present, numeric and distinct, else apply the scalar update with
`win = myScore > oppScore` on the dimension's own rating pair. -/
noncomputable def updDim (selfElo oppElo : ℤ) (c : Option DimCell)
    (isA : Bool) (k : ℤ) : ℤ :=
  match dimScorePair c isA with
  | some (my, op) =>
    if my = op then selfElo
    else calculate_elo_update selfElo oppElo (decide (op < my)) k
  | none => selfElo

/-- Round half to even, the behaviour of Python `round(...)` on the
exact-rational model of floats. -/
def pyRound (q : ℚ) : ℤ :=
  let f := ⌊q⌋
  let r := q - (f : ℚ)
  if r < 1 / 2 then f
  else if 1 / 2 < r then f + 1
  else if f % 2 = 0 then f else f + 1

/-- Model of `weights.get(dim, 0.25)`. -/
def wLookup (w : List (String × ℚ)) (dim : String) : ℚ :=
  (w.lookup dim).getD (1 / 4)

/-- The weighted composite rating recomputed at the end of
`update_dimension_elos` (types.py lines 232-238). -/
def compositeOf (w : List (String × ℚ)) (s p i c : ℤ) : ℤ :=
  pyRound ((s : ℚ) * wLookup w "scientific_merit" +
    (p : ℚ) * wLookup w "practical_value" +
    (i : ℚ) * wLookup w "impact" +
    (c : ℚ) * wLookup w "communication")

/-- Model of `Hypothesis.update_dimension_elos` (types.py lines
195-238): process the four dimensions in `_DIM_TO_ATTR` order, then
always recompute the composite `elo_rating` as the weighted sum of the
dimension ratings. -/
noncomputable def update_dimension_elos (self opp : Hypothesis)
    (ds : List (String × DimCell)) (w : List (String × ℚ))
    (k : ℤ) (isA : Bool) : Hypothesis :=
  let e1 := updDim self.elo_scientific opp.elo_scientific (ds.lookup "scientific_merit") isA k
  let s1 := { self with elo_scientific := e1 }
  let e2 := updDim s1.elo_practical opp.elo_practical (ds.lookup "practical_value") isA k
  let s2 := { s1 with elo_practical := e2 }
  let e3 := updDim s2.elo_impact opp.elo_impact (ds.lookup "impact") isA k
  let s3 := { s2 with elo_impact := e3 }
  let e4 := updDim s3.elo_communication opp.elo_communication (ds.lookup "communication") isA k
  let s4 := { s3 with elo_communication := e4 }
  let comp := compositeOf w s4.elo_scientific s4.elo_practical s4.elo_impact s4.elo_communication
  { s4 with elo_rating := comp }

/-- Stable insertion preserving descending key order: the new element
goes in front of the first element whose key is not larger. -/
def insertDesc (key : α → ℤ) (x : α) : List α → List α
  | [] => [x]
  | y :: ys => if key y ≤ key x then x :: y :: ys else y :: insertDesc key x ys

/-- Stable descending sort by an integer key.  Python's `sorted(...,
reverse=True)` and `list.sort(..., reverse=True)` are stable, and a
stable sort under a total preorder is unique, so this insertion sort is
extensionally the Timsort the source uses. -/
def pySortDesc (key : α → ℤ) : List α → List α
  | [] => []
  | x :: xs => insertDesc key x (pySortDesc key xs)

/-- Adjacent pairing `(0,1),(2,3),...` of a ranked index list; an odd
trailing entry gets a bye. -/
def pairAdj : List Nat → List (Nat × Nat)
  | a :: b :: rest => (a, b) :: pairAdj rest
  | _ => []

/-- Model of `swiss_pairs` (elo.py lines 79-100): sort indices by
rating descending (stable) and pair adjacent entries; fewer than two
items give no pairs.  The rng argument of the source is created but
never used. -/
def swiss_pairs (ratings : List ℤ) : List (Nat × Nat) :=
  let n := ratings.length
  if n < 2 then []
  else pairAdj (pySortDesc (fun i => ratings.getD i 0) (List.range n))

/-- Model of `round_robin_pairs` (elo.py lines 69-76): every unordered
pair exactly once, in `itertools.combinations` order. -/
def round_robin_pairs (n : Nat) : List (Nat × Nat) :=
  if n < 2 then []
  else (List.range n).flatMap (fun i => ((List.range n).filter (fun j => i < j)).map (fun j => (i, j)))

/-- Model of `random_pairs` (elo.py lines 49-66): `rounds` pairs drawn
from an injected sampler standing for `rng.sample(range(n), 2)`. -/
def random_pairs (n rounds : Nat) (sample : Nat → Nat × Nat) : List (Nat × Nat) :=
  if n < 2 then [] else (List.range rounds).map sample

/-- Ceiling of the base-2 logarithm, the value of
`math.ceil(math.log2 n)` for `n ≥ 1`: the least `k` with `n ≤ 2 ^ k`. -/
def ceilLog2 (n : Nat) : Nat :=
  (((List.range (n + 1)).find? (fun k => n ≤ 2 ^ k)).getD 0)

/-- Model of `swiss_rounds` (elo.py lines 103-107). -/
def swiss_rounds (n : Nat) : Nat :=
  if n < 2 then 0 else ceilLog2 n

/-- Model of `AIScientistFramework._generate_pairings` (main.py lines
1151-1177).  In swiss mode the ratings list is re-read from the same
`hypotheses` list on every loop iteration; since this method runs once,
before any match of the tournament is played, every round sees the same
ratings. -/
def generate_pairings (mode : String) (sample : Nat → Nat × Nat)
    (hyps : List Hypothesis) : List (Nat × Nat) :=
  if mode = "round_robin" then round_robin_pairs hyps.length
  else if mode = "swiss" then
    (List.range (swiss_rounds hyps.length)).flatMap
      (fun _ => swiss_pairs (hyps.map (fun h => h.elo_rating)))
  else random_pairs hyps.length (hyps.length * 3) sample

/-- Model of main.py lines 1289-1301: the winner's old rating is
recorded, the winner is updated against the loser's (still pre-match)
rating, and the loser is updated against the recorded pre-match winner
rating. -/
noncomputable def applyExchange (winner loser : Hypothesis) (k : ℤ) :
    Hypothesis × Hypothesis :=
  let old_winner_elo := winner.elo_rating
  let w2 := update_elo winner loser.elo_rating true k
  let l2 := update_elo loser old_winner_elo false k
  (w2, l2)

/-- Leftmost match of the fallback pattern
`"winner"\s*:\s*"?([ab])"?` (IGNORECASE) at the head of `cs`:
the literal quoted key, optional whitespace, a colon, optional
whitespace, an optional quote, then the captured letter, lowercased. -/
def winnerAt (cs : List Char) : Option String :=
  match cs with
  | q1 :: w :: i :: n1 :: n2 :: e :: r :: q2 :: rest =>
    if q1 = '"' ∧ w.toLower = 'w' ∧ i.toLower = 'i' ∧ n1.toLower = 'n' ∧
       n2.toLower = 'n' ∧ e.toLower = 'e' ∧ r.toLower = 'r' ∧ q2 = '"' then
      let r1 := rest.dropWhile pyIsSpace
      match r1 with
      | ':' :: r2 =>
        let r3 := r2.dropWhile pyIsSpace
        match r3 with
        | '"' :: x :: _ =>
          if x.toLower = 'a' ∨ x.toLower = 'b' then some (String.mk [x.toLower]) else none
        | x :: _ =>
          if x.toLower = 'a' ∨ x.toLower = 'b' then some (String.mk [x.toLower]) else none
        | [] => none
      | _ => none
    else none
  | _ => none

/-- Model of the `re.search` fallback (main.py lines 1265-1273):
scan every position for the winner pattern, first match wins. -/
def regexWinner : List Char → Option String
  | [] => none
  | c :: rest =>
    match winnerAt (c :: rest) with
    | some s => some s
    | none => regexWinner rest

/-- Look up a key in a parsed JSON object, modelling `dict.get`. -/
def lookupJ (es : List (String × JValue)) (k : String) : Option JValue :=
  match es with
  | [] => none
  | (k0, v) :: rest => if k0 = k then some v else lookupJ rest k

/-- Model of one iteration of the tournament loop
(main.py lines 1219-1318) over the state
(hypotheses list, valid-round count, skipped-round count).
Skip paths: out-of-range index (IndexError caught by the blanket
except), identical pairing, empty judge response, a parsed verdict that
is not a dict (`.get` raises AttributeError, caught by the blanket
except), and an unresolvable winner.  The decided path applies the
concurrent Elo exchange.  Note there is no branch consulting
`dimension_scores`. -/
noncomputable def processRound (judge : String → String → String) (k : ℤ)
    (st : List Hypothesis × Nat × Nat) (pr : Nat × Nat) :
    List Hypothesis × Nat × Nat :=
  match st.1.get? pr.1, st.1.get? pr.2 with
  | some h1, some h2 =>
    if pr.1 = pr.2 ∨ h1.text = h2.text then (st.1, st.2.1, st.2.2 + 1)
    else
      let response := judge h1.text h2.text
      if pyStrip response = "" then (st.1, st.2.1, st.2.2 + 1)
      else
        match safely_parse_json (.pstr response) with
        | .jobj entries =>
          let explicit : Option String :=
            match lookupJ entries "winner" with
            | some (.jstr s) => if s = "a" ∨ s = "b" then some s else none
            | _ => none
          let winner_choice : Option String :=
            match explicit with
            | some s => some s
            | none => regexWinner response.data
          match winner_choice with
          | some s =>
            if s = "a" then
              let ex := applyExchange h1 h2 k
              ((st.1.set pr.1 ex.1).set pr.2 ex.2, st.2.1 + 1, st.2.2)
            else if s = "b" then
              let ex := applyExchange h2 h1 k
              ((st.1.set pr.2 ex.1).set pr.1 ex.2, st.2.1 + 1, st.2.2)
            else (st.1, st.2.1, st.2.2 + 1)
          | none => (st.1, st.2.1, st.2.2 + 1)
        | _ => (st.1, st.2.1, st.2.2 + 1)
  | _, _ => (st.1, st.2.1, st.2.2 + 1)

/-- Fold the tournament loop over the pairing schedule. -/
noncomputable def runMatches (judge : String → String → String) (k : ℤ)
    (pairs : List (Nat × Nat)) (hyps : List Hypothesis) :
    List Hypothesis × Nat × Nat :=
  pairs.foldl (processRound judge k) (hyps, 0, 0)

/-- Model of `AIScientistFramework._run_tournament_phase` (main.py
lines 1179-1339): fewer than two hypotheses return immediately;
otherwise the pairings are generated once, every pair is processed, and
the list is stable-sorted by `elo_rating` descending.  The valid and
skipped round counters (observable through logs and metrics) are
returned alongside the list.  `k_factor` is 32 (line 1205). -/
noncomputable def run_tournament_phase (judge : String → String → String)
    (mode : String) (sample : Nat → Nat × Nat) (hyps : List Hypothesis) :
    List Hypothesis × Nat × Nat :=
  if hyps.length < 2 then (hyps, 0, 0)
  else
    let pairings := generate_pairings mode sample hyps
    let r := runMatches judge 32 pairings hyps
    (pySortDesc (fun h => h.elo_rating) r.1, r.2.1, r.2.2)

/-- Model of `validate_tournament_mode` (elo.py lines 110-117). -/
def validate_tournament_mode (mode : String) : Except String String :=
  if mode = "random" ∨ mode = "round_robin" ∨ mode = "swiss" then .ok mode
  else .error ("tournament_mode must be one of ('random', 'round_robin', 'swiss'), got " ++ mode)

/-- Model of the validation performed by `AIScientistFramework.__init__`
(main.py lines 91-163) on its configuration: `max_iterations` must be a
positive integer and `tournament_mode` must be recognised.  The dynamic
type checks on `model_name` and `verbose` are vacuous under the typed
embedding.  The constructor has no dimension-weights parameter and runs
no weight validation of any kind. -/
def frameworkInitChecks (max_iterations : ℤ) (tournament_mode : String) :
    Except String Unit :=
  if max_iterations < 1 then .error "max_iterations must be positive int"
  else
    match validate_tournament_mode tournament_mode with
    | .ok _ => .ok ()
    | .error e => .error e

/-- Fixture: hypothesis "A" with all defaults. -/
def hypoA : Hypothesis := { text := "A" }

/-- Fixture: hypothesis "B" with all defaults. -/
def hypoB : Hypothesis := { text := "B" }

/-- Fixture: four equally rated hypotheses. -/
def hyps4Ex : List Hypothesis :=
  [{ text := "A" }, { text := "B" }, { text := "C" }, { text := "D" }]

/-- Fixture: a trivial stand-in for the injected rng sampler. -/
def sampleZero : Nat → Nat × Nat := fun _ => (0, 0)

/-- Fixture: a judge whose raw response carries only dimension scores
and no `winner` key — the format the repository's own
`test_dimension_scores_update_in_phase` feeds the tournament phase. -/
def judgeDimEx : String → String → String := fun _ _ =>
  "\x7b\"dimension_scores\": \x7b\"impact\": \x7b\"h_a\": 9, \"h_b\": 1\x7d\x7d\x7d"

/-- Fixture: a judge that always returns an empty response. -/
def judgeEmptyEx : String → String → String := fun _ _ => ""

/-- Fixture: a dimension-score map with `scientific_merit` absent and
`practical_value` decided 5 against 3. -/
def dsEx : List (String × DimCell) :=
  [("practical_value", .cell (some (.num 5)) (some (.num 3)))]

/-- Fixture: the default tournament weights of the test suite. -/
def wEx : List (String × ℚ) :=
  [("scientific_merit", 1/4), ("practical_value", 7/20),
   ("impact", 1/4), ("communication", 3/20)]

lemma intTrunc_intCast (n : ℤ) : intTrunc (n : ℝ) = n := by
  unfold intTrunc
  split
  · exact Int.floor_intCast n
  · exact Int.ceil_intCast n

lemma expectedScore_self (r : ℤ) : expectedScore r r = 1 / 2 := by
  unfold expectedScore
  have h : ((r : ℝ) - (r : ℝ)) / 400 = 0 := by ring
  rw [h, Real.rpow_zero]
  norm_num

lemma elo_self_even_win (r m : ℤ) :
    calculate_elo_update r r true (2 * m) = r + m := by
  unfold calculate_elo_update
  rw [expectedScore_self]
  have h : ((2 * m : ℤ) : ℝ) * ((if true then (1 : ℝ) else 0) - 1 / 2) = ((m : ℤ) : ℝ) := by
    push_cast
    norm_num
    ring
  rw [h, intTrunc_intCast]

lemma elo_self_even_loss (r m : ℤ) :
    calculate_elo_update r r false (2 * m) = r - m := by
  unfold calculate_elo_update
  rw [expectedScore_self]
  have h : ((2 * m : ℤ) : ℝ) * ((if false then (1 : ℝ) else 0) - 1 / 2) = ((-m : ℤ) : ℝ) := by
    push_cast
    norm_num
    ring
  rw [h, intTrunc_intCast]
  ring

lemma elo_1216 : calculate_elo_update 1200 1200 true 32 = 1216 := by
  have h := elo_self_even_win 1200 16
  norm_num at h
  exact h

lemma elo_1184 : calculate_elo_update 1200 1200 false 32 = 1184 := by
  have h := elo_self_even_loss 1200 16
  norm_num at h
  exact h

lemma expectedScore_pos (r o : ℤ) : 0 < expectedScore r o := by
  unfold expectedScore
  have ht : 0 < (10 : ℝ) ^ (((o : ℝ) - (r : ℝ)) / 400) :=
    Real.rpow_pos_of_pos (by norm_num) _
  have hd : 0 < 1 + (10 : ℝ) ^ (((o : ℝ) - (r : ℝ)) / 400) := by linarith
  exact div_pos one_pos hd

lemma expectedScore_lt_one (r o : ℤ) : expectedScore r o < 1 := by
  unfold expectedScore
  have ht : 0 < (10 : ℝ) ^ (((o : ℝ) - (r : ℝ)) / 400) :=
    Real.rpow_pos_of_pos (by norm_num) _
  rw [div_lt_one (by linarith)]
  linarith

lemma mem_insertDesc {α} (key : α → ℤ) (x a : α) (l : List α) :
    a ∈ insertDesc key x l ↔ a = x ∨ a ∈ l := by
  induction l with
  | nil => simp [insertDesc]
  | cons y ys ih =>
    by_cases hc : key y ≤ key x
    · simp [insertDesc, hc]
    · simp [insertDesc, hc, ih]
      tauto

lemma insertDesc_pairwise {α} (key : α → ℤ) (x : α) (l : List α)
    (h : l.Pairwise (fun a b => key b ≤ key a)) :
    (insertDesc key x l).Pairwise (fun a b => key b ≤ key a) := by
  induction l with
  | nil => simp [insertDesc]
  | cons y ys ih =>
    rw [List.pairwise_cons] at h
    obtain ⟨hy, hys⟩ := h
    by_cases hc : key y ≤ key x
    · rw [insertDesc, if_pos hc]
      refine List.Pairwise.cons ?_ (List.Pairwise.cons hy hys)
      intro z hz
      rcases List.mem_cons.mp hz with hz | hz
      · exact hz ▸ hc
      · exact le_trans (hy z hz) hc
    · rw [insertDesc, if_neg hc]
      refine List.Pairwise.cons ?_ (ih hys)
      intro z hz
      rcases (mem_insertDesc key x z ys).mp hz with hz | hz
      · exact hz ▸ le_of_not_le hc
      · exact hy z hz

lemma pySortDesc_pairwise {α} (key : α → ℤ) (l : List α) :
    (pySortDesc key l).Pairwise (fun a b => key b ≤ key a) := by
  induction l with
  | nil => exact List.Pairwise.nil
  | cons x xs ih => exact insertDesc_pairwise key x (pySortDesc key xs) ih

lemma filter_insertDesc {α} (key : α → ℤ) (r : ℤ) (x : α) (l : List α) :
    (insertDesc key x l).filter (fun a => decide (key a = r)) =
      if key x = r then x :: l.filter (fun a => decide (key a = r))
      else l.filter (fun a => decide (key a = r)) := by
  induction l with
  | nil =>
    by_cases hx : key x = r <;> simp [insertDesc, List.filter, hx]
  | cons y ys ih =>
    by_cases hc : key y ≤ key x
    · rw [insertDesc, if_pos hc]
      by_cases hx : key x = r <;> simp [List.filter_cons, hx]
    · rw [insertDesc, if_neg hc]
      by_cases hx : key x = r
      · have hy : ¬ key y = r := by
          intro hy
          exact hc (le_of_eq (hx ▸ hy))
        simp [List.filter_cons, hx, hy, ih]
      · by_cases hy : key y = r <;> simp [List.filter_cons, hx, hy, ih]

lemma filter_pySortDesc {α} (key : α → ℤ) (r : ℤ) (l : List α) :
    (pySortDesc key l).filter (fun a => decide (key a = r)) =
      l.filter (fun a => decide (key a = r)) := by
  induction l with
  | nil => rfl
  | cons x xs ih =>
    rw [pySortDesc, filter_insertDesc]
    by_cases hx : key x = r <;> simp [List.filter_cons, hx, ih]

lemma processRound_disj (judge : String → String → String) (k : ℤ)
    (st : List Hypothesis × Nat × Nat) (pr : Nat × Nat) :
    processRound judge k st pr = (st.1, st.2.1, st.2.2 + 1) ∨
      ∃ l2, processRound judge k st pr = (l2, st.2.1 + 1, st.2.2) := by
  unfold processRound
  dsimp only
  split
  · split
    · left; rfl
    · split
      · left; rfl
      · split
        · split
          · split
            · right; exact ⟨_, rfl⟩
            · split
              · right; exact ⟨_, rfl⟩
              · left; rfl
          · left; rfl
        · left; rfl
  · left; rfl

lemma foldl_valid_mono (judge : String → String → String) (k : ℤ)
    (pairs : List (Nat × Nat)) (st : List Hypothesis × Nat × Nat) :
    st.2.1 ≤ (pairs.foldl (processRound judge k) st).2.1 := by
  induction pairs generalizing st with
  | nil => exact le_refl _
  | cons p ps ih =>
    rw [List.foldl_cons]
    refine le_trans ?_ (ih (processRound judge k st p))
    rcases processRound_disj judge k st p with h | ⟨l2, h⟩ <;> simp [h]

lemma foldl_zero_valid (judge : String → String → String) (k : ℤ)
    (pairs : List (Nat × Nat)) (st : List Hypothesis × Nat × Nat)
    (h : (pairs.foldl (processRound judge k) st).2.1 = st.2.1) :
    (pairs.foldl (processRound judge k) st).1 = st.1 := by
  induction pairs generalizing st with
  | nil => rfl
  | cons p ps ih =>
    rw [List.foldl_cons] at h ⊢
    rcases processRound_disj judge k st p with hs | ⟨l2, hv⟩
    · rw [hs] at h ⊢
      exact ih (st.1, st.2.1, st.2.2 + 1) h
    · exfalso
      rw [hv] at h
      have := foldl_valid_mono judge k ps (l2, st.2.1 + 1, st.2.2)
      simp at this
      omega

lemma runMatches_zero_valid (judge : String → String → String) (k : ℤ)
    (pairs : List (Nat × Nat)) (hyps : List Hypothesis)
    (h : (runMatches judge k pairs hyps).2.1 = 0) :
    (runMatches judge k pairs hyps).1 = hyps := by
  unfold runMatches at h ⊢
  exact foldl_zero_valid judge k pairs (hyps, 0, 0) h

lemma updDim_skip (c : Option DimCell) (isA : Bool)
    (h : dimSkip c isA = true) (e oe k : ℤ) :
    updDim e oe c isA k = e := by
  unfold dimSkip at h
  unfold updDim
  rcases hps : dimScorePair c isA with _ | ⟨a, b⟩
  · rfl
  · rw [hps] at h
    change decide (a = b) = true at h
    have hab := of_decide_eq_true h
    dsimp only
    rw [if_pos hab]

lemma updDim_scores (c : Option DimCell) (isA : Bool) (a b : ℚ)
    (h : dimScorePair c isA = some (a, b)) (hne : a ≠ b) (e oe k : ℤ) :
    updDim e oe c isA k = calculate_elo_update e oe (decide (b < a)) k := by
  unfold updDim
  rw [h]
  simp [hne]

/-- Claim C1 (code bug): the claim states the extractor always returns
a mapping and wraps a strict decode of a non-mapping JSON value as
`content`.  On the code, the full-strict-decode fast path
(json_parser.py line 58) returns the decoded value unwrapped, so
`"[1, 2]"` yields the bare list — contradicting the function's own
docstring and `Dict[str, Any]` annotation.  The empty-input and
non-string-input parts of the claim do hold. -/
theorem safely_parse_json_array_input_unwrapped :
    safely_parse_json (.pstr "[1, 2]") = .jarr [.jint 1, .jint 2] ∧
    (safely_parse_json (.pstr "[1, 2]")).isObj = false ∧
    safely_parse_json (.pstr "") =
      .jobj [("content", .jstr ""), ("error", .jstr "Empty response from agent")] ∧
    (∀ rep ty : String, safely_parse_json (.nonString rep ty) =
      .jobj [("content", .jstr rep), ("error", .jstr ("Invalid input type: " ++ ty))]) :=
  ⟨rfl, rfl, rfl, fun _ _ => rfl⟩

/-- Claim C2 (code bug): all swiss pairings are generated in one call
that runs before any match is played, so every round is paired from the
pre-tournament ratings: for four equally rated candidates both swiss
rounds are (0,1),(2,3) whatever the sampler, and the tournament phase
consumes exactly this precomputed schedule for every judge — no
round's pairs can depend on the outcomes of earlier rounds. -/
theorem swiss_pairings_precomputed :
    (∀ sample : Nat → Nat × Nat,
      generate_pairings "swiss" sample hyps4Ex = [(0, 1), (2, 3), (0, 1), (2, 3)]) ∧
    (∀ (judge : String → String → String) (sample : Nat → Nat × Nat),
      run_tournament_phase judge "swiss" sample hyps4Ex =
        (pySortDesc (fun h => h.elo_rating)
          (runMatches judge 32 (generate_pairings "swiss" sample hyps4Ex) hyps4Ex).1,
         (runMatches judge 32 (generate_pairings "swiss" sample hyps4Ex) hyps4Ex).2.1,
         (runMatches judge 32 (generate_pairings "swiss" sample hyps4Ex) hyps4Ex).2.2)) :=
  ⟨fun _ => rfl, fun _ _ => rfl⟩

/-- Claim C3 (code bug): a verdict carrying only `dimension_scores`
and no `winner` key parses to a mapping with the scores available, yet
the tournament round is skipped with no rating change — the
orchestrator has no dimension-score winner path, although the
repository's own `test_dimension_scores_update_in_phase` requires one. -/
theorem dimension_scores_response_skipped :
    safely_parse_json (.pstr (judgeDimEx "A" "B")) =
      .jobj [("dimension_scores",
        .jobj [("impact", .jobj [("h_a", .jint 9), ("h_b", .jint 1)])])] ∧
    run_tournament_phase judgeDimEx "round_robin" sampleZero [hypoA, hypoB] =
      ([hypoA, hypoB], 0, 1) :=
  ⟨rfl, rfl⟩

/-- Claim C4: `calculate_elo_update` computes
`r + trunc(k * (actual - 1/(1 + 10^((o-r)/400))))` with truncation
toward zero; the fair-match values 1216 and 1184 hold, and for equal
ratings and even k the winner's gain plus the loser's loss is 0. -/
theorem calculate_elo_update_formula_and_values :
    (∀ (r o : ℤ) (win : Bool) (k : ℤ),
      calculate_elo_update r o win k =
        r + intTrunc ((k : ℝ) * ((if win then (1 : ℝ) else 0) -
          1 / (1 + (10 : ℝ) ^ (((o : ℝ) - (r : ℝ)) / 400))))) ∧
    calculate_elo_update 1200 1200 true 32 = 1216 ∧
    calculate_elo_update 1200 1200 false 32 = 1184 ∧
    (∀ (r k : ℤ), k % 2 = 0 →
      (calculate_elo_update r r true k - r) +
        (calculate_elo_update r r false k - r) = 0) := by
  refine ⟨fun r o win k => rfl, elo_1216, elo_1184, fun r k hk => ?_⟩
  obtain ⟨m, hm⟩ : ∃ m, k = 2 * m := ⟨k / 2, by omega⟩
  subst hm
  rw [elo_self_even_win, elo_self_even_loss]
  ring

/-- Witness for C4 at a fair match with k = 32. -/
theorem calculate_elo_update_formula_witness :
    (32 : ℤ) % 2 = 0 ∧
    (calculate_elo_update 1200 1200 true 32 - 1200) +
      (calculate_elo_update 1200 1200 false 32 - 1200) = 0 :=
  ⟨by decide, calculate_elo_update_formula_and_values.2.2.2 1200 32 (by decide)⟩

/-- Claim C5: the decided-match exchange is concurrent — the winner's
new rating is computed against the loser's pre-match rating and the
loser's new rating against the recorded pre-match winner rating, with
the win and loss counters bumped once each. -/
theorem match_exchange_uses_prematch_ratings :
    ∀ (w l : Hypothesis) (k : ℤ),
      (applyExchange w l k).1.elo_rating =
        calculate_elo_update w.elo_rating l.elo_rating true k ∧
      (applyExchange w l k).2.elo_rating =
        calculate_elo_update l.elo_rating w.elo_rating false k ∧
      (applyExchange w l k).1.win_count = w.win_count + 1 ∧
      (applyExchange w l k).2.loss_count = l.loss_count + 1 :=
  fun _ _ _ => ⟨rfl, rfl, rfl, rfl⟩

/-- Claim C6: each dimension is skipped (rating kept) exactly under the
absent/non-dict/missing/non-numeric/equal conditions, otherwise updated
by the scalar formula with `win = selfScore > opponentScore` against
the opponent's rating for the same dimension, and `elo_rating` is
always recomputed as the rounded weighted sum of the (post-update)
dimension ratings — even when every dimension was skipped. -/
theorem update_dimension_elos_spec :
    ∀ (self opp : Hypothesis) (ds : List (String × DimCell))
      (w : List (String × ℚ)) (k : ℤ) (isA : Bool),
      ((dimSkip (ds.lookup "scientific_merit") isA = true →
        (update_dimension_elos self opp ds w k isA).elo_scientific = self.elo_scientific) ∧
       (∀ a b : ℚ, dimScorePair (ds.lookup "scientific_merit") isA = some (a, b) → a ≠ b →
        (update_dimension_elos self opp ds w k isA).elo_scientific =
          calculate_elo_update self.elo_scientific opp.elo_scientific (decide (b < a)) k)) ∧
      ((dimSkip (ds.lookup "practical_value") isA = true →
        (update_dimension_elos self opp ds w k isA).elo_practical = self.elo_practical) ∧
       (∀ a b : ℚ, dimScorePair (ds.lookup "practical_value") isA = some (a, b) → a ≠ b →
        (update_dimension_elos self opp ds w k isA).elo_practical =
          calculate_elo_update self.elo_practical opp.elo_practical (decide (b < a)) k)) ∧
      ((dimSkip (ds.lookup "impact") isA = true →
        (update_dimension_elos self opp ds w k isA).elo_impact = self.elo_impact) ∧
       (∀ a b : ℚ, dimScorePair (ds.lookup "impact") isA = some (a, b) → a ≠ b →
        (update_dimension_elos self opp ds w k isA).elo_impact =
          calculate_elo_update self.elo_impact opp.elo_impact (decide (b < a)) k)) ∧
      ((dimSkip (ds.lookup "communication") isA = true →
        (update_dimension_elos self opp ds w k isA).elo_communication = self.elo_communication) ∧
       (∀ a b : ℚ, dimScorePair (ds.lookup "communication") isA = some (a, b) → a ≠ b →
        (update_dimension_elos self opp ds w k isA).elo_communication =
          calculate_elo_update self.elo_communication opp.elo_communication (decide (b < a)) k)) ∧
      (update_dimension_elos self opp ds w k isA).elo_rating =
        pyRound (((update_dimension_elos self opp ds w k isA).elo_scientific : ℚ) *
            wLookup w "scientific_merit" +
          ((update_dimension_elos self opp ds w k isA).elo_practical : ℚ) *
            wLookup w "practical_value" +
          ((update_dimension_elos self opp ds w k isA).elo_impact : ℚ) *
            wLookup w "impact" +
          ((update_dimension_elos self opp ds w k isA).elo_communication : ℚ) *
            wLookup w "communication") :=
  fun _self _opp _ds _w _k _isA =>
    ⟨⟨fun h => updDim_skip _ _ h _ _ _,
      fun a b hp hne => updDim_scores _ _ a b hp hne _ _ _⟩,
     ⟨fun h => updDim_skip _ _ h _ _ _,
      fun a b hp hne => updDim_scores _ _ a b hp hne _ _ _⟩,
     ⟨fun h => updDim_skip _ _ h _ _ _,
      fun a b hp hne => updDim_scores _ _ a b hp hne _ _ _⟩,
     ⟨fun h => updDim_skip _ _ h _ _ _,
      fun a b hp hne => updDim_scores _ _ a b hp hne _ _ _⟩,
     rfl⟩

/-- Witness for C6: `scientific_merit` absent (skipped), while
`practical_value` scored 5 against 3 is updated. -/
theorem update_dimension_elos_spec_witness :
    dimSkip (dsEx.lookup "scientific_merit") true = true ∧
    dimScorePair (dsEx.lookup "practical_value") true = some (5, 3) ∧
    (update_dimension_elos hypoA hypoB dsEx wEx 32 true).elo_scientific =
      hypoA.elo_scientific ∧
    (update_dimension_elos hypoA hypoB dsEx wEx 32 true).elo_practical =
      calculate_elo_update hypoA.elo_practical hypoB.elo_practical
        (decide ((3 : ℚ) < 5)) 32 :=
  ⟨rfl, rfl,
   (update_dimension_elos_spec hypoA hypoB dsEx wEx 32 true).1.1 rfl,
   (update_dimension_elos_spec hypoA hypoB dsEx wEx 32 true).2.1.2 5 3 rfl (by norm_num)⟩

/-- Claim C7 (code bug): the constructor's validation covers only
`max_iterations` and `tournament_mode`; it has no dimension-weights
parameter at all, so a valid basic configuration is accepted with no
weight check of any kind, although the repository's own
`test_tournament_weights_validation` requires construction to fail for
weights summing to 2.0. -/
theorem framework_init_checks_eval :
    frameworkInitChecks 3 "round_robin" = .ok () ∧
    frameworkInitChecks 1 "swiss" = .ok () ∧
    frameworkInitChecks 0 "swiss" = .error "max_iterations must be positive int" :=
  ⟨rfl, rfl, rfl⟩

/-- Claim C8: the tournament returns the stable descending sort by
rating of the post-match list (sorted, and equal ratings keep their
relative order in the filter sense); fewer than two candidates return
unchanged with zero matches; and a run with zero valid matches leaves
the candidate list untouched. -/
theorem tournament_phase_sort_and_degenerate :
    ∀ (judge : String → String → String) (mode : String)
      (sample : Nat → Nat × Nat) (hyps : List Hypothesis),
      (hyps.length < 2 → run_tournament_phase judge mode sample hyps = (hyps, 0, 0)) ∧
      (2 ≤ hyps.length →
        run_tournament_phase judge mode sample hyps =
          (pySortDesc (fun h => h.elo_rating)
            (runMatches judge 32 (generate_pairings mode sample hyps) hyps).1,
           (runMatches judge 32 (generate_pairings mode sample hyps) hyps).2.1,
           (runMatches judge 32 (generate_pairings mode sample hyps) hyps).2.2)) ∧
      (∀ l : List Hypothesis,
        (pySortDesc (fun h : Hypothesis => h.elo_rating) l).Pairwise
          (fun a b => b.elo_rating ≤ a.elo_rating)) ∧
      (∀ (l : List Hypothesis) (r : ℤ),
        (pySortDesc (fun h : Hypothesis => h.elo_rating) l).filter
            (fun h => decide (h.elo_rating = r)) =
          l.filter (fun h => decide (h.elo_rating = r))) ∧
      (∀ pairs : List (Nat × Nat),
        (runMatches judge 32 pairs hyps).2.1 = 0 →
          (runMatches judge 32 pairs hyps).1 = hyps) := by
  intro judge mode sample hyps
  refine ⟨fun h => ?_, fun h => ?_, fun l => pySortDesc_pairwise _ l,
    fun l r => filter_pySortDesc _ r l,
    fun pairs h => runMatches_zero_valid judge 32 pairs hyps h⟩
  · unfold run_tournament_phase
    rw [if_pos h]
  · unfold run_tournament_phase
    rw [if_neg (by omega)]

/-- Witness for C8: a singleton run returns unchanged with zero
matches, and an always-empty judge leaves a two-candidate list
untouched. -/
theorem tournament_phase_sort_witness :
    run_tournament_phase judgeEmptyEx "round_robin" sampleZero [hypoA] = ([hypoA], 0, 0) ∧
    (runMatches judgeEmptyEx 32 [(0, 1)] [hypoA, hypoB]).1 = [hypoA, hypoB] :=
  ⟨(tournament_phase_sort_and_degenerate judgeEmptyEx "round_robin" sampleZero [hypoA]).1
     (by simp),
   (tournament_phase_sort_and_degenerate judgeEmptyEx "round_robin" sampleZero
     [hypoA, hypoB]).2.2.2.2 [(0, 1)] rfl⟩

/-- Claim C9: markdown fences (with or without a language tag) are
stripped before decoding, and when direct decoding fails the
balanced-brace scan returns the first balanced candidate that decodes:
braces inside quoted strings are not counted, an escaped quote does
not toggle string mode, a failing first brace falls through to the
next, and the first of several objects wins. -/
theorem extractor_fence_and_scan_examples :
    safely_parse_json (.pstr "```json\n\x7b\"winner\":\"a\"\x7d\n```") =
      .jobj [("winner", .jstr "a")] ∧
    safely_parse_json (.pstr "```\n\x7b\"a\": 1\x7d\n```") = .jobj [("a", .jint 1)] ∧
    safely_parse_json (.pstr "Sure, here you go: \x7b\"x\":1\x7d — hope that helps!") =
      .jobj [("x", .jint 1)] ∧
    safely_parse_json (.pstr "x \x7b\"a\": \"\x7d\x7b\", \"b\": 2\x7d y") =
      .jobj [("a", .jstr "\x7d\x7b"), ("b", .jint 2)] ∧
    safely_parse_json (.pstr "ok \x7b\"t\": \"a \\\"b\\\" c\"\x7d end") =
      .jobj [("t", .jstr "a \"b\" c")] ∧
    safely_parse_json (.pstr "a \x7boops\x7d b \x7b\"k\": 3\x7d c") =
      .jobj [("k", .jint 3)] ∧
    safely_parse_json (.pstr "prefix \x7b\"first\": 1\x7d middle \x7b\"second\": 2\x7d end") =
      .jobj [("first", .jint 1)] :=
  ⟨rfl, rfl, rfl, rfl, rfl, rfl, rfl⟩

/-- Claim C10: for a non-negative k-factor a win never lowers the
rating and a loss never raises it, and the absolute change is at most
the k-factor. -/
theorem calculate_elo_update_bounded :
    ∀ (r o : ℤ) (win : Bool) (k : ℤ), 0 ≤ k →
      (win = true → r ≤ calculate_elo_update r o win k ∧
        calculate_elo_update r o win k ≤ r + k) ∧
      (win = false → calculate_elo_update r o win k ≤ r ∧
        r - k ≤ calculate_elo_update r o win k) := by
  intro r o win k hk
  have he0 := expectedScore_pos r o
  have he1 := expectedScore_lt_one r o
  have hkR : (0 : ℝ) ≤ (k : ℝ) := by exact_mod_cast hk
  constructor
  · rintro rfl
    have key : calculate_elo_update r o true k =
        r + intTrunc ((k : ℝ) * (1 - expectedScore r o)) := rfl
    rw [key]
    set y : ℝ := (k : ℝ) * (1 - expectedScore r o) with hy
    have hy0 : 0 ≤ y := mul_nonneg hkR (by linarith)
    unfold intTrunc
    rw [if_pos hy0]
    constructor
    · have h0 : 0 ≤ ⌊y⌋ := Int.floor_nonneg.mpr hy0
      omega
    · have hyk : y ≤ (k : ℝ) := by
        calc y = (k : ℝ) * (1 - expectedScore r o) := hy
        _ ≤ (k : ℝ) * 1 := mul_le_mul_of_nonneg_left (by linarith) hkR
        _ = (k : ℝ) := mul_one _
      have hfk : ⌊y⌋ ≤ k := by
        have h1 : ((⌊y⌋ : ℤ) : ℝ) ≤ y := Int.floor_le y
        exact_mod_cast le_trans h1 hyk
      omega
  · rintro rfl
    have key : calculate_elo_update r o false k =
        r + intTrunc ((k : ℝ) * (0 - expectedScore r o)) := rfl
    rw [key]
    set y : ℝ := (k : ℝ) * (0 - expectedScore r o) with hy
    have hy0 : y ≤ 0 := by
      have : 0 ≤ (k : ℝ) * expectedScore r o := mul_nonneg hkR he0.le
      rw [hy]
      nlinarith
    have hyk : ((-k : ℤ) : ℝ) ≤ y := by
      have : (k : ℝ) * expectedScore r o ≤ (k : ℝ) * 1 :=
        mul_le_mul_of_nonneg_left he1.le hkR
      rw [hy]
      push_cast
      nlinarith
    unfold intTrunc
    by_cases h0 : (0 : ℝ) ≤ y
    · rw [if_pos h0]
      constructor
      · have h1 : ((⌊y⌋ : ℤ) : ℝ) ≤ 0 := le_trans (Int.floor_le y) hy0
        have h2 : ⌊y⌋ ≤ 0 := by exact_mod_cast h1
        omega
      · have h2 : (0 : ℤ) ≤ ⌊y⌋ := Int.floor_nonneg.mpr h0
        omega
    · rw [if_neg h0]
      constructor
      · have h1 : ⌈y⌉ ≤ (0 : ℤ) := Int.ceil_le.mpr (by exact_mod_cast hy0)
        omega
      · have h1 : ((-k : ℤ) : ℝ) ≤ ((⌈y⌉ : ℤ) : ℝ) := le_trans hyk (Int.le_ceil y)
        have h2 : (-k : ℤ) ≤ ⌈y⌉ := by exact_mod_cast h1
        omega

/-- Witness for C10 at ratings 1200 vs 1300 with k = 32. -/
theorem calculate_elo_update_bounded_witness :
    (0 : ℤ) ≤ 32 ∧
    (1200 : ℤ) ≤ calculate_elo_update 1200 1300 true 32 ∧
    calculate_elo_update 1200 1300 true 32 ≤ 1232 := by
  have h := (calculate_elo_update_bounded 1200 1300 true 32 (by decide)).1 rfl
  refine ⟨by decide, h.1, ?_⟩
  have h2 := h.2
  omega

end AICoSci
